import Mathlib

/-!
Verification of the node-hill server core, as described by its natural-language
specification, against a shallow embedding.  The repository ships only the
TypeScript declaration surface (`index.d.ts`); the runtime implementation is
absent, so every operation below is modelled from the specification (and, where
they speak, from the doc comments of the declarations), as indicated by each
definition's doc comment.
-/

namespace NodeHill

/-! ## Wire Frame Codec

Modelled from the spec: §4.1 and §6 describe the frame format
`[varint length][payload bytes...]` where the length is "a compact,
self-terminating varint encoding"; the codec buffers partial frames across
transport deliveries, emits a frame only once all of its declared bytes have
arrived, and treats a length prefix exceeding the configured maximum frame
size as a fatal framing error that closes the connection (no payload byte is
buffered).  The declaration surface exposes this state as
`ClientSocket._chunk : { recieve : Buffer, remaining : number, clear }`.
Bytes are modelled as natural numbers below 256. -/

/-- Modelled from the spec: the "compact, self-terminating varint encoding"
(LEB128: 7 payload bits per byte, high bit set on every byte but the last). -/
def encodeVarint (n : Nat) : List Nat :=
  if h : n < 128 then [n]
  else (n % 128 + 128) :: encodeVarint (n / 128)
termination_by n
decreasing_by
  exact Nat.div_lt_self (by omega) (by omega)

/-- Modelled from the spec: a frame on the wire is its varint-encoded byte
length immediately followed by exactly that many payload bytes. -/
def encodeFrame (payload : List Nat) : List Nat :=
  encodeVarint payload.length ++ payload

/-- Modelled from the spec: a sequence of frames is sent as the concatenation
of their encodings. -/
def encodeFrames (frames : List (List Nat)) : List Nat :=
  (frames.map encodeFrame).flatten

/-- Modelled from the spec: the per-connection codec state.  `header` is a
partially decoded varint length (accumulated value and current bit shift);
`body` holds the number of payload bytes still owed and the payload bytes
received so far (the `remaining` / `recieve` fields of `ClientSocket._chunk`);
`closed` is the state after a fatal framing error (the connection is closed
immediately, no retry). -/
inductive CodecState where
  | header (acc : Nat) (shift : Nat)
  | body (remaining : Nat) (recieve : List Nat)
  | closed
deriving DecidableEq, Repr

/-- The initial codec state of a fresh connection: waiting for a length. -/
def CodecState.start : CodecState := .header 0 0

/-- Modelled from the spec: consume one transport byte.  While decoding the
length, a byte with the high bit set contributes 7 more bits; the terminating
byte completes the length, which is rejected as fatal (state `closed`, nothing
buffered) when it exceeds `maxSize`.  While reading a body, bytes are buffered
and the frame is emitted only when the last declared byte arrives.  A closed
connection consumes nothing. -/
def feedByte (maxSize : Nat) : CodecState → Nat → CodecState × List (List Nat)
  | .header acc shift, b =>
    if b < 128 then
      let len := acc + b * 2 ^ shift
      if maxSize < len then (.closed, [])
      else if len = 0 then (.header 0 0, [[]])
      else (.body len [], [])
    else (.header (acc + (b - 128) * 2 ^ shift) (shift + 7), [])
  | .body remaining recieve, b =>
    if remaining ≤ 1 then (.header 0 0, [recieve ++ [b]])
    else (.body (remaining - 1) (recieve ++ [b]), [])
  | .closed, _ => (.closed, [])

/-- Feed a list of bytes one at a time, collecting the emitted frames. -/
def feedBytes (maxSize : Nat) (s : CodecState) : List Nat → CodecState × List (List Nat)
  | [] => (s, [])
  | b :: bs =>
    let r₁ := feedByte maxSize s b
    let r₂ := feedBytes maxSize r₁.1 bs
    (r₂.1, r₁.2 ++ r₂.2)

/-- Modelled from the spec: the transport delivers the byte stream fragmented
into arbitrary chunks; each chunk is fed to the codec in order. -/
def feedChunks (maxSize : Nat) (s : CodecState) : List (List Nat) → CodecState × List (List Nat)
  | [] => (s, [])
  | c :: cs =>
    let r₁ := feedBytes maxSize s c
    let r₂ := feedChunks maxSize r₁.1 cs
    (r₂.1, r₁.2 ++ r₂.2)

/-! ## Spatial primitive and networked entity model -/

/-- The 3-component vector type (spec §2/§3); components are modelled as
integers. -/
structure Vector3 where
  x : Int
  y : Int
  z : Int
deriving DecidableEq, Repr

/-- Squared euclidean distance between two points, used to express the
`clickDistance` comparison without square roots. -/
def distSq (a b : Vector3) : Int :=
  (a.x - b.x) ^ 2 + (a.y - b.y) ^ 2 + (a.z - b.z) ^ 2

/-- An outbound packet, identified by its wire kind tag and the `netId` of
the entity it describes. -/
structure Packet where
  kind : Nat
  netId : Nat
deriving DecidableEq, Repr

/-- Modelled from the spec: the conceptual `NetworkEntity` header of §3 — a
process-unique `netId`, a one-way `destroyed` flag, and the kind-specific
state. -/
structure Entity (α : Type) where
  netId : Nat
  destroyed : Bool
  state : α
deriving DecidableEq, Repr

/-- The outcome of one mutator call: the entity afterwards, the boolean the
returned promise resolves with, and the packets encoded for delivery. -/
structure MutationResult (α : Type) where
  entity : Entity α
  ok : Bool
  packets : List Packet
deriving DecidableEq, Repr

/-- Modelled from the spec: the uniform mutation protocol of §4.3 and §7 —
a mutation on a destroyed entity is a no-op that resolves with a failure
result and emits no packet; otherwise the in-memory authoritative value is
updated and exactly one delta packet is encoded. -/
def mutate {α : Type} (e : Entity α) (update : α → α) (kind : Nat) :
    MutationResult α :=
  if e.destroyed then ⟨e, false, []⟩
  else ⟨⟨e.netId, e.destroyed, update e.state⟩, true, [⟨kind, e.netId⟩]⟩

/-- The kind-specific state of a scenery piece (Brick), per the declaration
surface: position, scale, color, visibility, collision, clickable flag and
click distance. -/
structure BrickData where
  position : Vector3
  scale : Vector3
  color : Nat
  visibility : Int
  collision : Bool
  clickable : Bool
  clickDistance : Int
deriving DecidableEq, Repr

/-- Modelled from the spec: `Brick.setPosition` encodes one Brick packet
(wire kind 9) after updating the position. -/
def Brick.setPosition (b : Entity BrickData) (p : Vector3) :
    MutationResult BrickData :=
  mutate b (fun s => { s with position := p }) 9

/-- Modelled from the spec: `Brick.setColor` encodes one Brick packet (wire
kind 9) after updating the color. -/
def Brick.setColor (b : Entity BrickData) (c : Nat) : MutationResult BrickData :=
  mutate b (fun s => { s with color := c }) 9

/-- The kind-specific state of an avatar (Player) that the claims need:
position, health, max health, alive flag. -/
structure PlayerData where
  position : Vector3
  health : Int
  maxHealth : Int
  alive : Bool
deriving DecidableEq, Repr

/-- Modelled from the spec: the state update of `Player.setHealth`, per its
declaration doc — "Sets the players health. If the health provided is larger
than maxHealth, maxHealth will automatically be set to the new health
value." -/
def setHealthUpdate (h : Int) (s : PlayerData) : PlayerData :=
  let s₁ := if s.maxHealth < h then { s with maxHealth := h } else s
  { s₁ with health := h }

/-- Modelled from the spec: `Player.setHealth` follows the uniform mutation
protocol, encoding one PlayerModification packet (wire kind 7). -/
def Player.setHealth (e : Entity PlayerData) (h : Int) :
    MutationResult PlayerData :=
  mutate e (setHealthUpdate h) 7

/-! ## Brick lifecycle, proximity monitor, and the click gate -/

/-- A live scenery piece: the entity core plus the runtime state the
declaration surface exposes (`_hitMonitorActive`, `_playersTouching`) and the
optional owning socket (`Brick.socket`, attached by `player.newBrick`),
identified here by a connection id. -/
structure LiveBrick where
  core : Entity BrickData
  socket : Option Nat
  hitMonitorActive : Bool
  playersTouching : List Nat
deriving DecidableEq, Repr

/-- Modelled from the spec: `Brick.destroy` (§4.3, §5, §8) — marks the entity
destroyed, synchronously stops its hit monitor and releases its timers,
clears the touching set, and tells clients to delete the brick (the one
DeleteBrick frame, wire kind 16, emitted by the destroy operation itself). -/
def Brick.destroy (b : LiveBrick) : LiveBrick × List Packet :=
  ({ core := { b.core with destroyed := true },
     socket := b.socket,
     hitMonitorActive := false,
     playersTouching := [] },
   [⟨16, b.core.netId⟩])

/-- The operations that can reach a brick during the process lifetime after
its creation: property mutations and monitor ticks. -/
inductive BrickOp where
  | setPos (p : Vector3)
  | setColor (c : Nat)
  | tick (overlapping : List Nat)
deriving DecidableEq, Repr

/-- Modelled from the spec: one monitor tick (§4.5) — while the monitor is
active and the entity is not destroyed, the touching set becomes the
currently overlapping avatars and an enter event fires for each newly
overlapping one; a destroyed entity's monitor never ticks. -/
def brickTick (b : LiveBrick) (overlapping : List Nat) :
    LiveBrick × List Nat :=
  if b.hitMonitorActive && !b.core.destroyed then
    ({ b with playersTouching := overlapping },
     overlapping.filter (fun a => !b.playersTouching.contains a))
  else (b, [])

/-- Step a brick through one operation, collecting the outbound packets and
the touch events produced. -/
def stepBrick (b : LiveBrick) : BrickOp → LiveBrick × List Packet × List Nat
  | .setPos p =>
    let r := mutate b.core (fun s => { s with position := p }) 9
    ({ b with core := r.entity }, r.packets, [])
  | .setColor c =>
    let r := mutate b.core (fun s => { s with color := c }) 9
    ({ b with core := r.entity }, r.packets, [])
  | .tick ov =>
    let r := brickTick b ov
    (r.1, [], r.2)

/-- Run a sequence of operations, concatenating packets and events. -/
def runBrick (b : LiveBrick) :
    List BrickOp → LiveBrick × List Packet × List Nat
  | [] => (b, [], [])
  | op :: ops =>
    let r₁ := stepBrick b op
    let r₂ := runBrick r₁.1 ops
    (r₂.1, r₁.2.1 ++ r₂.2.1, r₁.2.2 ++ r₂.2.2)

/-- A click event as delivered to `Brick.clicked` listeners: the clicking
player and the declared `secure` flag. -/
structure ClickEvent where
  player : Nat
  secure : Bool
deriving DecidableEq, Repr

/-- Modelled from the spec: handling of a click request on a brick, following
the declared `Brick.clicked` callback surface
`(player, secure?: boolean)` and its doc — a click on a destroyed or
non-clickable brick is ignored; otherwise the click event is delivered to the
listeners, with its `secure` flag true exactly when the requesting avatar is
within `clickDistance` of the brick at the moment of the request (the live,
point-in-time distance check, independent of the cached touching set, which
this handler does not consult). -/
def clickRequest (b : LiveBrick) (pid : Nat) (playerPos : Vector3) :
    List ClickEvent :=
  if b.core.destroyed || !b.core.state.clickable then []
  else
    [⟨pid, decide (distSq playerPos b.core.state.position ≤
      b.core.state.clickDistance ^ 2)⟩]

/-- A concrete clickable, non-destroyed brick whose last recorded touching
set contains avatar 42, used to exercise the click gate. -/
def clickCexBrick : LiveBrick :=
  { core := ⟨1, false,
      { position := ⟨0, 0, 0⟩, scale := ⟨1, 1, 1⟩, color := 0, visibility := 1,
        collision := true, clickable := true, clickDistance := 2 }⟩,
    socket := none,
    hitMonitorActive := true,
    playersTouching := [42] }

/-! ## netId assignment -/

/-- Modelled from the spec: each entity kind owns a static counter
(`Brick.brickId`, `Player.playerId`, ...) from which `netId` values are
assigned; it starts at a fixed value and only ever increments. -/
structure IdCounter where
  next : Nat
deriving DecidableEq, Repr

/-- Entity lifecycle operations as seen by the counter. -/
inductive RegistryOp where
  | create
  | destroy (id : Nat)
deriving DecidableEq, Repr

/-- Modelled from the spec: creation assigns the counter's current value and
increments it; destruction never touches the counter (no id is ever freed
for reuse). -/
def stepCounter (c : IdCounter) : RegistryOp → IdCounter × Option Nat
  | .create => (⟨c.next + 1⟩, some c.next)
  | .destroy _ => (c, none)

/-- The list of netIds assigned over a sequence of create/destroy
operations. -/
def assignedIds (c : IdCounter) : List RegistryOp → List Nat
  | [] => []
  | op :: ops =>
    let r := stepCounter c op
    r.2.toList ++ assignedIds r.1 ops

/-! ## Proximity engine: enter/leave for one (entity, avatar) pair -/

/-- What one monitor tick observes about one avatar: whether it currently
overlaps the entity's volume, whether it is alive, and whether its
connection is still open. -/
structure TickInput where
  overlap : Bool
  alive : Bool
  connected : Bool
deriving DecidableEq, Repr

/-- A touch transition event. -/
inductive TouchEvent where
  | enter
  | leave
deriving DecidableEq, Repr

/-- Modelled from the spec: the per-tick transition for one (entity, avatar)
pair (§4.5).  A disconnected avatar is silently dropped from the touching set
with no leave event; an avatar in the set that no longer overlaps fires leave
and is removed (also when it died while touching — death alone never removes
it); an alive avatar that newly overlaps fires enter and is added; a dead
avatar is never added. -/
def touchStep (inSet : Bool) (t : TickInput) : Bool × Option TouchEvent :=
  if !t.connected then (false, none)
  else if inSet then
    (if t.overlap then (true, none) else (false, some .leave))
  else
    (if t.overlap && t.alive then (true, some .enter) else (false, none))

/-- Run the monitor over a sequence of ticks, collecting emitted events. -/
def touchRun (inSet : Bool) : List TickInput → Bool × List TouchEvent
  | [] => (inSet, [])
  | t :: ts =>
    let r₁ := touchStep inSet t
    let r₂ := touchRun r₁.1 ts
    (r₂.1, r₁.2.toList ++ r₂.2)

/-- `AltFrom false evs` states that `evs` strictly alternates beginning with
enter; `AltFrom true evs` that it strictly alternates beginning with leave
(the avatar is currently in the touching set). -/
inductive AltFrom : Bool → List TouchEvent → Prop
  | nil (b : Bool) : AltFrom b []
  | enter (evs : List TouchEvent) :
      AltFrom true evs → AltFrom false (.enter :: evs)
  | leave (evs : List TouchEvent) :
      AltFrom false evs → AltFrom true (.leave :: evs)

/-! ## Connection-scoped (local) bricks and delivery routing -/

/-- The server-side delivery state the claims need: the shared World brick
index, the authenticated connections, and a log of every frame delivered,
tagged with the receiving connection. -/
structure ServerState where
  worldBricks : List Nat
  conns : List Nat
  log : List (Nat × Packet)
deriving DecidableEq, Repr

/-- Modelled from the spec: delivery routing (§4.3) — an entity with an
attached per-connection owner routes exclusively to that connection's
socket; otherwise the packet is broadcast to every authenticated
connection. -/
def routeTargets (socket : Option Nat) (conns : List Nat) : List Nat :=
  match socket with
  | some s => [s]
  | none => conns

/-- Deliver packets to each target connection, appending to the log. -/
def deliver (st : ServerState) (targets : List Nat) (pkts : List Packet) :
    ServerState :=
  { st with
    log := st.log ++
      (targets.map (fun c => pkts.map (fun pk => (c, pk)))).flatten }

/-- Modelled from the spec: a position mutation on a (possibly
connection-owned) brick — the uniform protocol's state update and single
delta packet, routed per `routeTargets`; the World index is neither
consulted nor modified. -/
def setPositionRouted (st : ServerState) (b : LiveBrick) (p : Vector3) :
    ServerState × LiveBrick :=
  let r := mutate b.core (fun s => { s with position := p }) 9
  (deliver st (routeTargets b.socket st.conns) r.packets,
   { b with core := r.entity })

/-- Apply a sequence of position updates to the same brick. -/
def applyPositionUpdates :
    ServerState × LiveBrick → List Vector3 → ServerState × LiveBrick
  | sb, [] => sb
  | sb, p :: ps => applyPositionUpdates (setPositionRouted sb.1 sb.2 p) ps

/-! ## Sanction subsystem -/

/-- Modelled from the spec: the sanction subsystem's state, per the declared
`SanctionClass` — a banned-address set, an allowed-address set, and a
disabled switch. -/
structure SanctionState where
  bannedIPs : List String
  allowedIPs : List String
  disabled : Bool
deriving DecidableEq, Repr

/-- Modelled from the spec: the connection-accept check (§4.6) — consulted
before the authentication handshake; the allow-list takes precedence over
the deny-list, so an address on both lists is accepted. -/
def acceptConnection (st : SanctionState) (ip : String) : Bool :=
  st.disabled || st.allowedIPs.contains ip || !(st.bannedIPs.contains ip)

theorem feedBytes_append (maxSize : Nat) (s : CodecState) (xs ys : List Nat) :
    feedBytes maxSize s (xs ++ ys) =
      ((feedBytes maxSize (feedBytes maxSize s xs).1 ys).1,
        (feedBytes maxSize s xs).2 ++ (feedBytes maxSize (feedBytes maxSize s xs).1 ys).2) := by
  induction xs generalizing s with
  | nil => simp [feedBytes]
  | cons b bs ih => simp [feedBytes, ih]

theorem feedChunks_eq_feedBytes_flatten (maxSize : Nat) (s : CodecState) (cs : List (List Nat)) :
    feedChunks maxSize s cs = feedBytes maxSize s cs.flatten := by
  induction cs generalizing s with
  | nil => simp [feedChunks, feedBytes]
  | cons c cs ih => simp [feedChunks, feedBytes_append, ih]

theorem feedBytes_varint (maxSize n acc shift : Nat) :
    feedBytes maxSize (.header acc shift) (encodeVarint n) =
      if maxSize < acc + n * 2 ^ shift then (.closed, [])
      else if acc + n * 2 ^ shift = 0 then (.header 0 0, [[]])
      else (.body (acc + n * 2 ^ shift) [], []) := by
  induction n using Nat.strong_induction_on generalizing acc shift with
  | _ n ih =>
    rw [encodeVarint]
    by_cases h : n < 128
    · simp only [h, dite_true]
      simp [feedBytes, feedByte, h]
    · simp only [h, dite_false]
      have hdiv : n / 128 < n := Nat.div_lt_self (by omega) (by omega)
      have hb : ¬ (n % 128 + 128 < 128) := by omega
      have hmod : n % 128 + 128 - 128 = n % 128 := by omega
      simp only [feedBytes, feedByte, hb, if_false, hmod]
      rw [ih (n / 128) hdiv]
      have harith : acc + n % 128 * 2 ^ shift + n / 128 * 2 ^ (shift + 7) =
          acc + n * 2 ^ shift := by
        have := Nat.mod_add_div n 128
        calc acc + n % 128 * 2 ^ shift + n / 128 * 2 ^ (shift + 7)
            = acc + (n % 128 + 128 * (n / 128)) * 2 ^ shift := by rw [pow_add]; ring
          _ = acc + n * 2 ^ shift := by rw [this]
      rw [harith]
      simp

theorem feedBytes_body_incomplete (maxSize : Nat) (q : List Nat) (remaining : Nat)
    (acc : List Nat) (hq : q.length < remaining) :
    feedBytes maxSize (.body remaining acc) q =
      (.body (remaining - q.length) (acc ++ q), []) := by
  induction q generalizing remaining acc with
  | nil => simp [feedBytes]
  | cons b bs ih =>
    have hr : ¬ (remaining ≤ 1) := by simp at hq; omega
    simp only [feedBytes, feedByte, hr, if_false]
    rw [ih (remaining - 1) (acc ++ [b]) (by simp at hq ⊢; omega)]
    have he : remaining - 1 - bs.length = remaining - (b :: bs).length := by
      simp only [List.length_cons]
      omega
    simp [he]

theorem feedBytes_body_complete (maxSize : Nat) (p acc : List Nat) (hp : p ≠ []) :
    feedBytes maxSize (.body p.length acc) p = (.header 0 0, [acc ++ p]) := by
  rcases List.eq_nil_or_concat p with rfl | ⟨p', b, rfl⟩
  · exact absurd rfl hp
  · simp only [List.concat_eq_append]
    rw [feedBytes_append,
      feedBytes_body_incomplete maxSize p' ((p' ++ [b]).length) acc (by simp)]
    have h1 : (p' ++ [b]).length - p'.length = 1 := by simp
    simp [h1, feedBytes, feedByte]

theorem feedBytes_varint_incomplete (maxSize n : Nat) :
    ∀ acc shift : Nat, ∀ p q : List Nat, p ++ q = encodeVarint n → q ≠ [] →
      ∃ acc₂ shift₂,
        feedBytes maxSize (.header acc shift) p = (.header acc₂ shift₂, []) := by
  induction n using Nat.strong_induction_on with
  | _ n ih =>
    intro acc shift p q hpq hq
    rw [encodeVarint] at hpq
    by_cases h : n < 128
    · simp only [h, dite_true] at hpq
      cases p with
      | nil => exact ⟨acc, shift, by simp [feedBytes]⟩
      | cons b bs =>
        exfalso
        have hlen := congrArg List.length hpq
        simp only [List.length_append, List.length_cons, List.length_nil] at hlen
        exact hq (List.length_eq_zero.mp (by omega))
    · simp only [h, dite_false] at hpq
      cases p with
      | nil => exact ⟨acc, shift, by simp [feedBytes]⟩
      | cons b bs =>
        have hb : b = n % 128 + 128 := by simpa using congrArg (fun l => l.headI) hpq
        have hbs : bs ++ q = encodeVarint (n / 128) := by
          simpa using congrArg (fun l => l.tail) hpq
        have hge : ¬ (b < 128) := by omega
        have hmod : b - 128 = n % 128 := by omega
        have hdiv : n / 128 < n := Nat.div_lt_self (by omega) (by omega)
        obtain ⟨a₂, s₂, hrec⟩ :=
          ih (n / 128) hdiv (acc + (b - 128) * 2 ^ shift) (shift + 7) bs q hbs hq
        refine ⟨a₂, s₂, ?_⟩
        simp only [feedBytes, feedByte, hge, if_false, hrec]
        simp

theorem feedBytes_closed (maxSize : Nat) (bs : List Nat) :
    feedBytes maxSize .closed bs = (.closed, []) := by
  induction bs with
  | nil => rfl
  | cons b bs ih => simp [feedBytes, feedByte, ih]

theorem feedBytes_frame (maxSize : Nat) (f : List Nat) (hf : f.length ≤ maxSize) :
    feedBytes maxSize .start (encodeFrame f) = (.start, [f]) := by
  unfold encodeFrame
  rw [show CodecState.start = CodecState.header 0 0 from rfl, feedBytes_append,
    feedBytes_varint]
  have hnot : ¬ (maxSize < 0 + f.length * 2 ^ 0) := by simpa using hf
  rw [if_neg hnot]
  cases f with
  | nil => simp [feedBytes]
  | cons b bs =>
    rw [if_neg (by simp : ¬ (0 + (b :: bs).length * 2 ^ 0 = 0))]
    rw [show (0 + (b :: bs).length * 2 ^ 0) = (b :: bs).length by simp]
    simpa using feedBytes_body_complete maxSize (b :: bs) [] (by simp)

theorem feedBytes_frames (maxSize : Nat) (fs : List (List Nat))
    (hfs : ∀ f ∈ fs, f.length ≤ maxSize) :
    feedBytes maxSize .start (encodeFrames fs) = (.start, fs) := by
  induction fs with
  | nil => simp [encodeFrames, feedBytes]
  | cons f fs ih =>
    have h₁ : f.length ≤ maxSize := hfs f (by simp)
    have h₂ : ∀ g ∈ fs, g.length ≤ maxSize := fun g hg => hfs g (by simp [hg])
    simp only [encodeFrames, List.map_cons, List.flatten_cons]
    rw [feedBytes_append, feedBytes_frame maxSize f h₁]
    rw [show (encodeFrames fs) = (fs.map encodeFrame).flatten from rfl] at ih
    rw [ih h₂]
    simp

theorem feedBytes_frame_incomplete (maxSize : Nat) (f : List Nat) (hf : f.length ≤ maxSize)
    (p q : List Nat) (hpq : p ++ q = encodeFrame f) (hq : q ≠ []) :
    (feedBytes maxSize .start p).2 = [] := by
  unfold encodeFrame at hpq
  rcases List.append_eq_append_iff.mp hpq with ⟨a, ha, hqa⟩ | ⟨c, hc, hfc⟩
  · cases a with
    | nil =>
      have hp : p = encodeVarint f.length := by simpa using ha.symm
      have hfne : f ≠ [] := by
        intro hfe
        exact hq (by simpa [hfe] using hqa)
      subst hp
      rw [show CodecState.start = CodecState.header 0 0 from rfl, feedBytes_varint]
      have hnot : ¬ (maxSize < 0 + f.length * 2 ^ 0) := by simpa using hf
      have hne : ¬ (0 + f.length * 2 ^ 0 = 0) := by
        simpa using fun h => hfne (List.length_eq_zero.mp h)
      rw [if_neg hnot, if_neg hne]
    | cons a₀ as =>
      obtain ⟨acc₂, shift₂, hrun⟩ :=
        feedBytes_varint_incomplete maxSize f.length 0 0 p (a₀ :: as) ha.symm (by simp)
      rw [show CodecState.start = CodecState.header 0 0 from rfl, hrun]
  · subst hc
    have hfne : f ≠ [] := by
      intro hfe
      rw [hfe] at hfc
      exact hq (List.append_eq_nil.mp hfc.symm).2
    have hclen : c.length < f.length := by
      have := congrArg List.length hfc
      simp at this
      rcases Nat.lt_or_ge c.length f.length with h | h
      · exact h
      · exfalso
        have hq0 : q.length = 0 := by omega
        exact hq (List.length_eq_zero.mp hq0)
    rw [show CodecState.start = CodecState.header 0 0 from rfl, feedBytes_append,
      feedBytes_varint]
    have hnot : ¬ (maxSize < 0 + f.length * 2 ^ 0) := by simpa using hf
    have hne : ¬ (0 + f.length * 2 ^ 0 = 0) := by
      simpa using fun h => hfne (List.length_eq_zero.mp h)
    rw [if_neg hnot, if_neg hne]
    rw [show (0 + f.length * 2 ^ 0) = f.length by simp]
    rw [feedBytes_body_incomplete maxSize c f.length [] hclen]
    simp

/-- C2: for every finite sequence of valid length-prefixed frames (each within
the configured maximum size), concatenating their encoded bytes and feeding
the result to the Wire Frame Codec split into arbitrary chunks yields exactly
the original frame sequence in order; and no frame is emitted before all of
its declared payload bytes have arrived — after the bytes of the earlier
frames plus any proper prefix of a frame's encoding, exactly the earlier
frames have been emitted. -/
theorem frame_roundtrip_chunked (maxSize : Nat) (fs : List (List Nat))
    (hfs : ∀ f ∈ fs, f.length ≤ maxSize)
    (cs : List (List Nat)) (hcs : cs.flatten = encodeFrames fs) :
    (feedChunks maxSize .start cs).2 = fs ∧
      (∀ fs₁ f fs₂, fs = fs₁ ++ f :: fs₂ →
        ∀ p q, p ++ q = encodeFrame f → q ≠ [] →
          (feedBytes maxSize .start (encodeFrames fs₁ ++ p)).2 = fs₁) := by
  constructor
  · rw [feedChunks_eq_feedBytes_flatten, hcs, feedBytes_frames maxSize fs hfs]
  · intro fs₁ f fs₂ hsplit p q hpq hq
    have hfs₁ : ∀ g ∈ fs₁, g.length ≤ maxSize := by
      intro g hg
      exact hfs g (by simp [hsplit, hg])
    have hflen : f.length ≤ maxSize := hfs f (by simp [hsplit])
    rw [feedBytes_append, feedBytes_frames maxSize fs₁ hfs₁]
    have hpart := feedBytes_frame_incomplete maxSize f hflen p q hpq hq
    simp [hpart]

/-- Witness for C2 at a concrete input: the two frames `[6, 42]` and `[7]`
encoded, concatenated, and delivered one byte at a time are reconstructed
exactly. -/
theorem frame_roundtrip_chunked_witness :
    (∀ f ∈ [[6, 42], [7]], List.length f ≤ 100) ∧
      (List.flatten [[2], [6], [42], [1], [7]] = encodeFrames [[6, 42], [7]]) ∧
      (feedChunks 100 .start [[2], [6], [42], [1], [7]]).2 = [[6, 42], [7]] := by
  refine ⟨by decide, ?_, ?_⟩
  · simp [encodeFrames, encodeFrame, encodeVarint]
  · exact (frame_roundtrip_chunked 100 [[6, 42], [7]] (by decide)
      [[2], [6], [42], [1], [7]]
      (by simp [encodeFrames, encodeFrame, encodeVarint])).1

/-- C9: a length prefix that decodes to more bytes than the configured maximum
frame size is rejected the moment it is decoded: the codec reaches the
`closed` state with no payload byte buffered and no frame emitted, and the
error is fatal for the connection — whatever bytes follow are discarded and
nothing is ever emitted again (no retry). -/
theorem length_bound_fatal (maxSize len : Nat) (hlen : maxSize < len)
    (rest : List Nat) :
    feedBytes maxSize .start (encodeVarint len ++ rest) = (.closed, []) := by
  rw [show CodecState.start = CodecState.header 0 0 from rfl, feedBytes_append,
    feedBytes_varint]
  have h : maxSize < 0 + len * 2 ^ 0 := by simpa using hlen
  rw [if_pos h]
  simp [feedBytes_closed]

/-- Witness for C9 at a concrete input: with maximum frame size 5, a length
prefix claiming 6 bytes closes the connection at once; the following bytes
are discarded and nothing is emitted. -/
theorem length_bound_fatal_witness :
    5 < 6 ∧ feedBytes 5 .start (encodeVarint 6 ++ [1, 2, 3]) = (.closed, []) :=
  ⟨by decide, length_bound_fatal 5 6 (by decide) [1, 2, 3]⟩

/-- C3: a property mutator called on a destroyed entity is a no-op: it is a
total function (so it cannot throw), it resolves with the failure result
`false`, it leaves the entity's authoritative state unchanged, and it emits
no packet — for the uniform mutation protocol with any update and packet
kind, and in particular for `Brick.setPosition`, `Brick.setColor` and
`Player.setHealth`. -/
theorem destroyed_mutation_noop :
    (∀ {α : Type} (e : Entity α), e.destroyed = true →
      ∀ (update : α → α) (kind : Nat), mutate e update kind = ⟨e, false, []⟩) ∧
    (∀ (b : Entity BrickData) (p : Vector3), b.destroyed = true →
      Brick.setPosition b p = ⟨b, false, []⟩) ∧
    (∀ (b : Entity BrickData) (c : Nat), b.destroyed = true →
      Brick.setColor b c = ⟨b, false, []⟩) ∧
    (∀ (e : Entity PlayerData) (h : Int), e.destroyed = true →
      Player.setHealth e h = ⟨e, false, []⟩) := by
  refine ⟨fun e he update kind => ?_, fun b p hb => ?_, fun b c hb => ?_,
    fun e h he => ?_⟩ <;>
    simp [mutate, Brick.setPosition, Brick.setColor, Player.setHealth, *]

/-- Witness for C3 at a concrete input: `setPosition` on a destroyed brick
resolves `false`, changes nothing and sends nothing. -/
theorem destroyed_mutation_noop_witness :
    (Entity.mk 5 true
        (BrickData.mk ⟨0, 0, 0⟩ ⟨1, 1, 1⟩ 0 1 true false 0)).destroyed = true ∧
      Brick.setPosition
          (Entity.mk 5 true (BrickData.mk ⟨0, 0, 0⟩ ⟨1, 1, 1⟩ 0 1 true false 0))
          ⟨7, 8, 9⟩ =
        ⟨Entity.mk 5 true (BrickData.mk ⟨0, 0, 0⟩ ⟨1, 1, 1⟩ 0 1 true false 0),
          false, []⟩ :=
  ⟨rfl, destroyed_mutation_noop.2.1
    (Entity.mk 5 true (BrickData.mk ⟨0, 0, 0⟩ ⟨1, 1, 1⟩ 0 1 true false 0))
    ⟨7, 8, 9⟩ rfl⟩

/-- C10: on a live player, `setHealth h` with `h` greater than the current
`maxHealth` raises `maxHealth` to `h` and sets `health` to `h` — the health
is not clamped to the old maximum. -/
theorem setHealth_raises_maxHealth (e : Entity PlayerData) (h : Int)
    (hdest : e.destroyed = false) (hgt : e.state.maxHealth < h) :
    (Player.setHealth e h).entity.state.maxHealth = h ∧
      (Player.setHealth e h).entity.state.health = h := by
  simp [Player.setHealth, mutate, hdest, setHealthUpdate, hgt]

/-- Witness for C10 at a concrete input: a player with maxHealth 100 given
health 150 ends with maxHealth 150 and health 150. -/
theorem setHealth_raises_maxHealth_witness :
    (Entity.mk 1 false (PlayerData.mk ⟨0, 0, 0⟩ 100 100 true)).destroyed
        = false ∧
      (Entity.mk 1 false (PlayerData.mk ⟨0, 0, 0⟩ 100 100 true)).state.maxHealth
        < 150 ∧
      (Player.setHealth
          (Entity.mk 1 false (PlayerData.mk ⟨0, 0, 0⟩ 100 100 true))
          150).entity.state.maxHealth = 150 ∧
      (Player.setHealth
          (Entity.mk 1 false (PlayerData.mk ⟨0, 0, 0⟩ 100 100 true))
          150).entity.state.health = 150 := by
  refine ⟨rfl, by decide, ?_, ?_⟩
  · exact (setHealth_raises_maxHealth
      (Entity.mk 1 false (PlayerData.mk ⟨0, 0, 0⟩ 100 100 true)) 150 rfl
      (by decide)).1
  · exact (setHealth_raises_maxHealth
      (Entity.mk 1 false (PlayerData.mk ⟨0, 0, 0⟩ 100 100 true)) 150 rfl
      (by decide)).2

theorem runBrick_destroyed (b : LiveBrick) (hd : b.core.destroyed = true)
    (hm : b.hitMonitorActive = false) (ops : List BrickOp) :
    (runBrick b ops).2.1 = [] ∧ (runBrick b ops).2.2 = [] := by
  induction ops generalizing b with
  | nil => simp [runBrick]
  | cons op ops ih =>
    have hstep : (stepBrick b op).1.core.destroyed = true ∧
        (stepBrick b op).1.hitMonitorActive = false ∧
        (stepBrick b op).2.1 = [] ∧ (stepBrick b op).2.2 = [] := by
      cases op <;> simp [stepBrick, mutate, brickTick, hd, hm]
    obtain ⟨h₁, h₂, h₃, h₄⟩ := hstep
    have := ih (stepBrick b op).1 h₁ h₂
    simp [runBrick, h₃, h₄, this.1, this.2]

/-- C4: once `destroy` completes on a brick, the monitor is already stopped
(synchronously, hence within one tick period), and no sequence of subsequent
operations — mutations or monitor ticks — produces any outbound frame
(in particular none referencing the brick's netId) or any touch event. -/
theorem destroyed_silence (b : LiveBrick) (ops : List BrickOp) :
    (Brick.destroy b).1.hitMonitorActive = false ∧
      (runBrick (Brick.destroy b).1 ops).2.1 = [] ∧
      (runBrick (Brick.destroy b).1 ops).2.2 = [] := by
  refine ⟨rfl, ?_, ?_⟩ <;>
    have h := runBrick_destroyed (Brick.destroy b).1 (by simp [Brick.destroy])
      (by simp [Brick.destroy]) ops
  · exact h.1
  · exact h.2

theorem assignedIds_create (s : Nat) (ops : List RegistryOp) :
    assignedIds ⟨s⟩ (.create :: ops) = s :: assignedIds ⟨s + 1⟩ ops := by
  simp [assignedIds, stepCounter]

theorem assignedIds_ge (s : Nat) (ops : List RegistryOp) :
    ∀ i ∈ assignedIds ⟨s⟩ ops, s ≤ i := by
  induction ops generalizing s with
  | nil => simp [assignedIds]
  | cons op ops ih =>
    cases op with
    | create =>
      rw [assignedIds_create]
      intro i hi
      rcases List.mem_cons.mp hi with rfl | hi
      · exact le_refl i
      · exact le_trans (Nat.le_succ s) (ih (s + 1) i hi)
    | destroy id =>
      simpa [assignedIds, stepCounter] using ih s

/-- C5: over any sequence of create/destroy operations on one entity kind's
counter, the assigned netIds are strictly increasing (hence pairwise
distinct) and destruction never frees an id for reuse; N bare creations from
start value s assign exactly s, s+1, ..., s+N-1. -/
theorem netId_monotone (s : Nat) (ops : List RegistryOp) :
    (assignedIds ⟨s⟩ ops).Pairwise (· < ·) ∧
      ∀ n : Nat, assignedIds ⟨s⟩ (List.replicate n .create) =
        (List.range n).map (fun i => s + i) := by
  constructor
  · induction ops generalizing s with
    | nil => simp [assignedIds]
    | cons op ops ih =>
      cases op with
      | create =>
        rw [assignedIds_create]
        exact List.pairwise_cons.mpr
          ⟨fun i hi => lt_of_lt_of_le (Nat.lt_succ_self s)
              (assignedIds_ge (s + 1) ops i hi),
            ih (s + 1)⟩
      | destroy id => simpa [assignedIds, stepCounter] using ih s
  · intro n
    induction n generalizing s with
    | zero => simp [assignedIds]
    | succ n ih =>
      rw [List.replicate_succ, assignedIds_create, ih (s + 1),
        List.range_succ_eq_map]
      simp only [List.map_cons, List.map_map]
      refine congrArg (s :: ·) ?_
      refine List.map_congr_left fun i _ => ?_
      simp [Function.comp]
      omega

/-- C8: an address present in both the allow-set and the ban-set of the
sanction subsystem passes the connection-accept check: the allow-list takes
precedence over the deny-list. -/
theorem ban_precedence (st : SanctionState) (ip : String)
    (hallow : st.allowedIPs.contains ip = true)
    (hban : st.bannedIPs.contains ip = true) :
    acceptConnection st ip = true := by
  have hmem : ip ∈ st.allowedIPs := by simpa using hallow
  simp [acceptConnection, hmem]

/-- Witness for C8 at a concrete input: "10.0.0.7" is on both lists and is
accepted. -/
theorem ban_precedence_witness :
    (SanctionState.mk ["10.0.0.7"] ["10.0.0.7"] false).allowedIPs.contains
        "10.0.0.7" = true ∧
      (SanctionState.mk ["10.0.0.7"] ["10.0.0.7"] false).bannedIPs.contains
        "10.0.0.7" = true ∧
      acceptConnection (SanctionState.mk ["10.0.0.7"] ["10.0.0.7"] false)
        "10.0.0.7" = true :=
  ⟨rfl, rfl,
    ban_precedence (SanctionState.mk ["10.0.0.7"] ["10.0.0.7"] false)
      "10.0.0.7" rfl rfl⟩

theorem touchRun_altFrom (ts : List TickInput)
    (hconn : ∀ t ∈ ts, t.connected = true) (inSet : Bool) :
    AltFrom inSet (touchRun inSet ts).2 := by
  induction ts generalizing inSet with
  | nil => exact AltFrom.nil inSet
  | cons t ts ih =>
    obtain ⟨o, a, c⟩ := t
    have ht : c = true := hconn ⟨o, a, c⟩ (by simp)
    subst ht
    have hts : ∀ u ∈ ts, u.connected = true := fun u hu => hconn u (by simp [hu])
    cases inSet <;> cases o <;> cases a <;>
      simp [touchRun, touchStep] <;>
      first
      | exact ih hts false
      | exact ih hts true
      | exact AltFrom.enter _ (ih hts true)
      | exact AltFrom.leave _ (ih hts false)

/-- C6: for one (entity, avatar) pair, as long as the avatar stays connected
the emitted event sequence strictly alternates beginning with enter; the one
exception is disconnection, which drops the avatar from the touching set
with no leave event; an avatar that dies while overlapping stays in the set
(no implicit leave), still leaves on actual spatial departure, and a dead
avatar is never entered. -/
theorem touch_alternation :
    (∀ ts : List TickInput, (∀ t ∈ ts, t.connected = true) →
        AltFrom false (touchRun false ts).2) ∧
      (∀ o a : Bool, touchStep true ⟨o, a, false⟩ = (false, none)) ∧
      touchStep true ⟨true, false, true⟩ = (true, none) ∧
      touchStep true ⟨false, false, true⟩ = (false, some .leave) ∧
      touchStep false ⟨true, false, true⟩ = (false, none) := by
  refine ⟨fun ts h => touchRun_altFrom ts h false, fun o a => ?_, rfl, rfl, rfl⟩
  simp [touchStep]

/-- Witness for C6 at a concrete input: an avatar crossing in, staying, and
stepping out over four connected ticks yields the alternating sequence
enter, leave. -/
theorem touch_alternation_witness :
    (∀ t ∈ [TickInput.mk true true true, TickInput.mk true true true,
        TickInput.mk false true true, TickInput.mk false true true],
      t.connected = true) ∧
      AltFrom false
        (touchRun false
          [TickInput.mk true true true, TickInput.mk true true true,
            TickInput.mk false true true, TickInput.mk false true true]).2 :=
  ⟨by decide,
    touch_alternation.1
      [TickInput.mk true true true, TickInput.mk true true true,
        TickInput.mk false true true, TickInput.mk false true true]
      (by decide)⟩

theorem setPositionRouted_frame (st : ServerState) (b : LiveBrick)
    (p : Vector3) (s : Nat) (hs : b.socket = some s) :
    (setPositionRouted st b p).2.socket = some s ∧
      (setPositionRouted st b p).1.worldBricks = st.worldBricks ∧
      (setPositionRouted st b p).1.conns = st.conns ∧
      ∀ c : Nat, c ≠ s →
        (setPositionRouted st b p).1.log.filter (fun e => decide (e.1 = c)) =
          st.log.filter (fun e => decide (e.1 = c)) := by
  refine ⟨by simp [setPositionRouted, hs], rfl, rfl, fun c hc => ?_⟩
  by_cases hd : b.core.destroyed = true
  · simp [setPositionRouted, mutate, hd, deliver]
  · simp only [Bool.not_eq_true] at hd
    simp [setPositionRouted, mutate, hd, deliver, routeTargets, hs,
      List.filter_append, Ne.symm hc, hc]

/-- C7: a connection-owned brick's mutations are observed only on that
connection and never modify the shared World brick index: any sequence of
position updates leaves the World index and the connection set untouched and
appends no frame to the log of any other connection. -/
theorem local_brick_scoping (st : ServerState) (b : LiveBrick) (s : Nat)
    (hs : b.socket = some s) (ps : List Vector3) :
    (applyPositionUpdates (st, b) ps).1.worldBricks = st.worldBricks ∧
      (applyPositionUpdates (st, b) ps).1.conns = st.conns ∧
      ∀ c : Nat, c ≠ s →
        (applyPositionUpdates (st, b) ps).1.log.filter
            (fun e => decide (e.1 = c)) =
          st.log.filter (fun e => decide (e.1 = c)) := by
  induction ps generalizing st b with
  | nil => exact ⟨rfl, rfl, fun c _ => rfl⟩
  | cons p ps ih =>
    obtain ⟨hsock, hworld, hconns, hlog⟩ := setPositionRouted_frame st b p s hs
    have hrec := ih (setPositionRouted st b p).1 (setPositionRouted st b p).2
      hsock
    refine ⟨?_, ?_, fun c hc => ?_⟩
    · rw [show applyPositionUpdates (st, b) (p :: ps) =
        applyPositionUpdates (setPositionRouted st b p) ps from rfl]
      rw [hrec.1]
      exact hworld
    · rw [show applyPositionUpdates (st, b) (p :: ps) =
        applyPositionUpdates (setPositionRouted st b p) ps from rfl]
      rw [hrec.2.1]
      exact hconns
    · rw [show applyPositionUpdates (st, b) (p :: ps) =
        applyPositionUpdates (setPositionRouted st b p) ps from rfl]
      rw [hrec.2.2 c hc]
      exact hlog c hc

/-- Witness for C7 at a concrete input: ten position updates on a brick owned
by connection 3 leave connection 5's log (and the World index) untouched. -/
theorem local_brick_scoping_witness :
    (LiveBrick.mk ⟨9, false,
          BrickData.mk ⟨0, 0, 0⟩ ⟨1, 1, 1⟩ 0 1 true false 0⟩
        (some 3) false []).socket = some 3 ∧
      (applyPositionUpdates
          (ServerState.mk [1, 2] [3, 5, 8] [],
            LiveBrick.mk ⟨9, false,
                BrickData.mk ⟨0, 0, 0⟩ ⟨1, 1, 1⟩ 0 1 true false 0⟩
              (some 3) false [])
          (List.replicate 10 ⟨4, 4, 4⟩)).1.worldBricks = [1, 2] ∧
      (applyPositionUpdates
          (ServerState.mk [1, 2] [3, 5, 8] [],
            LiveBrick.mk ⟨9, false,
                BrickData.mk ⟨0, 0, 0⟩ ⟨1, 1, 1⟩ 0 1 true false 0⟩
              (some 3) false [])
          (List.replicate 10 ⟨4, 4, 4⟩)).1.log.filter
          (fun e => decide (e.1 = 5)) = [] := by
  have h := local_brick_scoping (ServerState.mk [1, 2] [3, 5, 8] [])
    (LiveBrick.mk ⟨9, false, BrickData.mk ⟨0, 0, 0⟩ ⟨1, 1, 1⟩ 0 1 true false 0⟩
      (some 3) false [])
    3 rfl (List.replicate 10 ⟨4, 4, 4⟩)
  exact ⟨rfl, h.1, h.2.2 5 (by decide)⟩

/-- C1 counterexample: on a clickable, non-destroyed brick whose last
recorded touching set contains avatar 42, a click request from far outside
`clickDistance` (distance² = 100 against clickDistance² = 4) is not
rejected: a click event is still delivered, so the claim "no click event is
delivered" fails on the declared `Brick.clicked` surface. -/
theorem secure_click_gate_cex :
    clickCexBrick.core.state.clickable = true ∧
      clickCexBrick.core.destroyed = false ∧
      42 ∈ clickCexBrick.playersTouching ∧
      clickCexBrick.core.state.clickDistance ^ 2 <
        distSq ⟨10, 0, 0⟩ clickCexBrick.core.state.position ∧
      clickRequest clickCexBrick 42 ⟨10, 0, 0⟩ ≠ [] := by
  refine ⟨rfl, rfl, by decide, by decide, ?_⟩
  decide

/-- C1 (amended): a click request whose live distance check fails — even on a
clickable, non-destroyed brick whose last recorded touching set contains the
requesting avatar — is not dropped; the click event is delivered with its
`secure` flag false, so listeners can reject it, the live validation being
signalled through the flag rather than by rejection. -/
theorem secure_click_flag (b : LiveBrick) (pid : Nat) (pos : Vector3)
    (hc : b.core.state.clickable = true) (hd : b.core.destroyed = false)
    (htouch : pid ∈ b.playersTouching)
    (hfar : b.core.state.clickDistance ^ 2 <
      distSq pos b.core.state.position) :
    clickRequest b pid pos = [⟨pid, false⟩] := by
  have hnle : ¬ (distSq pos b.core.state.position ≤
      b.core.state.clickDistance ^ 2) := not_le.mpr hfar
  simp [clickRequest, hc, hd, hnle]

/-- Witness for the amended C1 at a concrete input: the far-away click on
the concrete brick is delivered as the single event `(player 42, secure =
false)`. -/
theorem secure_click_flag_witness :
    clickCexBrick.core.state.clickable = true ∧
      clickCexBrick.core.destroyed = false ∧
      42 ∈ clickCexBrick.playersTouching ∧
      clickCexBrick.core.state.clickDistance ^ 2 <
        distSq ⟨10, 0, 0⟩ clickCexBrick.core.state.position ∧
      clickRequest clickCexBrick 42 ⟨10, 0, 0⟩ =
        [ClickEvent.mk 42 false] :=
  ⟨rfl, rfl, by decide, by decide,
    secure_click_flag clickCexBrick 42 ⟨10, 0, 0⟩ rfl rfl (by decide)
      (by decide)⟩

end NodeHill
